import Mathlib

/-!
Shallow embedding of the chain-state core of the Trade (Neutron-lineage)
full node, `src/main.cpp`, together with proofs checking the
natural-language specification against the code.

Conventions:
* machine integers are modelled as `Nat` / `Int` with explicit `% 2 ^ w`
  where overflow matters (`uint256` chain trust);
* external collaborators (hash functions, serialization sizes, the script
  solver, sporks, the masternode payment manager) are passed in as explicit
  oracle parameters;
* constants living in headers that are not part of the source tree
  (`main.h`, `bignum.h`) are modelled from the specification and are
  either parameters of the definitions or marked `Modelled from the spec:`.
-/

/-- Structure `COutPoint`: (txid, output index).  The txid is the 256-bit hash as a
natural number, `n` the `uint32` index. -/
structure COutPoint where
  hash : Nat
  n : Nat
deriving DecidableEq, Repr

/-- Modelled from the spec: `IsNull` iff txid == 0 and index == 0xFFFFFFFF
(`COutPoint::IsNull`, declared in the missing `main.h`). -/
def COutPoint.IsNull (o : COutPoint) : Bool :=
  o.hash == 0 && o.n == 4294967295

/-- Structure `CTxIn`: previous outpoint, signature script (byte list), sequence. -/
structure CTxIn where
  prevout : COutPoint
  scriptSig : List Nat
  nSequence : Nat
deriving DecidableEq, Repr

/-- Structure `CTxOut`: value in satoshi units and the output script (byte list). -/
structure CTxOut where
  nValue : Int
  scriptPubKey : List Nat
deriving DecidableEq, Repr

/-- Modelled from the spec: `IsEmpty` iff value == 0 and script empty
(`CTxOut::IsEmpty`, declared in the missing `main.h`). -/
def CTxOut.IsEmpty (o : CTxOut) : Bool :=
  o.nValue == 0 && o.scriptPubKey.isEmpty

/-- Structure `CTransaction`. -/
structure CTransaction where
  nVersion : Int
  nTime : Nat
  vin : List CTxIn
  vout : List CTxOut
  nLockTime : Nat
deriving DecidableEq, Repr

/-- Modelled from the spec: coinbase iff |vin| == 1 and vin[0].prevout is
null (`CTransaction::IsCoinBase`, declared in the missing `main.h`). -/
def CTransaction.IsCoinBase (tx : CTransaction) : Bool :=
  match tx.vin with
  | [i] => i.prevout.IsNull
  | _ => false

/-- Modelled from the spec: coinstake iff |vin| ≥ 1, |vout| ≥ 2,
vout[0].IsEmpty and vout[1].value > 0 (`CTransaction::IsCoinStake`,
declared in the missing `main.h`). -/
def CTransaction.IsCoinStake (tx : CTransaction) : Bool :=
  match tx.vin, tx.vout with
  | _ :: _, o0 :: o1 :: _ => o0.IsEmpty && decide (o1.nValue > 0)
  | _, _ => false

/-- Structure `CBlock`: header fields, transaction list and the block signature. -/
structure CBlock where
  nVersion : Int
  hashPrevBlock : Nat
  hashMerkleRoot : Nat
  nTime : Nat
  nBits : Nat
  nNonce : Nat
  vtx : List CTransaction
  vchBlockSig : List Nat
deriving DecidableEq, Repr

/-- Modelled from the spec: a block is proof-of-stake iff |vtx| ≥ 2 and
vtx[1] is a coinstake (`CBlock::IsProofOfStake`, missing `main.h`). -/
def CBlock.IsProofOfStake (b : CBlock) : Bool :=
  match b.vtx with
  | _ :: t1 :: _ => t1.IsCoinStake
  | _ => false

/-- Function `CBlock::IsProofOfWork` is the negation of `IsProofOfStake`. -/
def CBlock.IsProofOfWork (b : CBlock) : Bool :=
  !b.IsProofOfStake

/-- Modelled from the spec: `MoneyRange(v)` iff 0 ≤ v ≤ MAX_MONEY
(declared in the missing `main.h`); `maxMoney` is a parameter. -/
def MoneyRange (maxMoney v : Int) : Bool :=
  decide (0 ≤ v) && decide (v ≤ maxMoney)

/-- The per-output loop of `CTransaction::CheckTransaction`
(src/main.cpp:433-450): rejects empty outputs of user transactions,
negative values, values above MAX_MONEY, and keeps a running total that
must stay in `MoneyRange` after every addition. -/
def checkVoutLoop (isCB isCS : Bool) (maxMoney : Int) :
    List CTxOut → Int → Bool
  | [], _ => true
  | o :: rest, acc =>
    if o.IsEmpty && !isCB && !isCS then false
    else if decide (o.nValue < 0) then false
    else if decide (o.nValue > maxMoney) then false
    else
      let acc2 := acc + o.nValue
      if !MoneyRange maxMoney acc2 then false
      else checkVoutLoop isCB isCS maxMoney rest acc2

/-- The duplicate-input loop of `CTransaction::CheckTransaction`
(src/main.cpp:453-462): walks `vin` keeping the set of outpoints seen so
far, returns `true` iff a duplicate occurs. -/
def hasDupOutpoints : List COutPoint → List CTxIn → Bool
  | _, [] => false
  | seen, i :: rest =>
    if i.prevout ∈ seen then true
    else hasDupOutpoints (i.prevout :: seen) rest

/-- Function `CTransaction::CheckTransaction` (src/main.cpp:417-479).  The
serialized size is supplied by the oracle `serSize` (serialization is
external to the core); `fTestNet`, `maxMoney` and `maxBlockSize` stand
for the globals / header constants. -/
def checkTransaction (fTestNet : Bool) (maxMoney : Int)
    (maxBlockSize serSize : Nat) (tx : CTransaction) : Bool :=
  if tx.vin.isEmpty then false
  else if tx.vout.isEmpty then false
  else if decide (serSize > maxBlockSize) then false
  else if !checkVoutLoop tx.IsCoinBase tx.IsCoinStake maxMoney tx.vout 0 then false
  else if hasDupOutpoints [] tx.vin then false
  else if tx.IsCoinBase then
    if !fTestNet &&
        (decide ((tx.vin.headD ⟨⟨0, 0⟩, [], 0⟩).scriptSig.length < 2) ||
         decide ((tx.vin.headD ⟨⟨0, 0⟩, [], 0⟩).scriptSig.length > 100)) then false
    else true
  else if tx.vin.any (fun i => i.prevout.IsNull) then false
  else true

/-- Sum of the values of the first `k` outputs. -/
def voutValueSum (outs : List CTxOut) : Int :=
  (outs.map (fun o => o.nValue)).sum

/-- Lemma: `checkVoutLoop` forces every later partial sum into `MoneyRange`. -/
theorem checkVoutLoop_range (isCB isCS : Bool) (maxMoney : Int) :
    ∀ (outs : List CTxOut) (acc : Int),
      checkVoutLoop isCB isCS maxMoney outs acc = true →
      ∀ k, 0 < k → k ≤ outs.length →
        MoneyRange maxMoney (acc + voutValueSum (outs.take k)) = true := by
  intro outs
  induction outs with
  | nil =>
    intro acc _ k hk hk2
    simp at hk2
    omega
  | cons o rest ih =>
    intro acc h k hk hk2
    rw [checkVoutLoop] at h
    by_cases hempty : (o.IsEmpty && !isCB && !isCS) = true
    · simp [hempty] at h
    · simp only [hempty, if_false] at h
      by_cases hneg : decide (o.nValue < 0) = true
      · simp [hneg] at h
      · simp only [hneg, if_false] at h
        by_cases hhigh : decide (o.nValue > maxMoney) = true
        · simp [hhigh] at h
        · simp only [hhigh, if_false] at h
          by_cases hrange : (!MoneyRange maxMoney (acc + o.nValue)) = true
          · simp [hrange] at h
          · simp only [hrange, if_false] at h
            cases k with
            | zero => omega
            | succ k2 =>
              cases Nat.eq_zero_or_pos k2 with
              | inl hz =>
                subst hz
                simpa [voutValueSum] using (by simpa using hrange)
              | inr hpos =>
                have hk2' : k2 ≤ rest.length := by
                  simpa using hk2
                have := ih (acc + o.nValue) h k2 hpos hk2'
                simpa [voutValueSum, List.take, add_assoc] using this

/-- Lemma: `checkVoutLoop` forces every individual value into `[0, maxMoney]`. -/
theorem checkVoutLoop_each (isCB isCS : Bool) (maxMoney : Int) :
    ∀ (outs : List CTxOut) (acc : Int),
      checkVoutLoop isCB isCS maxMoney outs acc = true →
      ∀ o ∈ outs, 0 ≤ o.nValue ∧ o.nValue ≤ maxMoney := by
  intro outs
  induction outs with
  | nil => intro acc _ o ho; simp at ho
  | cons o0 rest ih =>
    intro acc h o ho
    rw [checkVoutLoop] at h
    by_cases hempty : (o0.IsEmpty && !isCB && !isCS) = true
    · simp [hempty] at h
    · simp only [hempty, if_false] at h
      by_cases hneg : decide (o0.nValue < 0) = true
      · simp [hneg] at h
      · simp only [hneg, if_false] at h
        by_cases hhigh : decide (o0.nValue > maxMoney) = true
        · simp [hhigh] at h
        · simp only [hhigh, if_false] at h
          by_cases hrange : (!MoneyRange maxMoney (acc + o0.nValue)) = true
          · simp [hrange] at h
          · simp only [hrange, if_false] at h
            rcases List.mem_cons.mp ho with rfl | hmem
            · exact ⟨by simpa using hneg, by simpa using hhigh⟩
            · exact ih (acc + o0.nValue) h o hmem

/-- Lemma: `hasDupOutpoints seen vin = false` means the prevouts of `vin` are
pairwise distinct and avoid `seen`. -/
theorem hasDupOutpoints_spec :
    ∀ (vin : List CTxIn) (seen : List COutPoint),
      hasDupOutpoints seen vin = false →
      (vin.map (fun i => i.prevout)).Nodup ∧
        ∀ i ∈ vin, i.prevout ∉ seen := by
  intro vin
  induction vin with
  | nil => intro seen _; simp
  | cons i rest ih =>
    intro seen h
    rw [hasDupOutpoints] at h
    by_cases hmem : i.prevout ∈ seen
    · simp [hmem] at h
    · simp only [hmem, if_false] at h
      obtain ⟨hnodup, havoid⟩ := ih (i.prevout :: seen) h
      refine ⟨?_, ?_⟩
      · refine List.nodup_cons.mpr ⟨?_, hnodup⟩
        intro hcontra
        obtain ⟨j, hj, hjeq⟩ := List.mem_map.mp hcontra
        exact (havoid j hj) (by simp [hjeq])
      · intro j hj
        rcases List.mem_cons.mp hj with rfl | hjr
        · exact hmem
        · intro hcontra
          exact (havoid j hjr) (by simp [hcontra])

/-- The conjunction of necessary conditions that `CheckTransaction`
enforces (claim C2). -/
def CheckTransactionNecessary (fTestNet : Bool) (maxMoney : Int)
    (maxBlockSize serSize : Nat) (tx : CTransaction) : Prop :=
  tx.vin ≠ [] ∧ tx.vout ≠ [] ∧ serSize ≤ maxBlockSize ∧
  (∀ o ∈ tx.vout, 0 ≤ o.nValue ∧ o.nValue ≤ maxMoney) ∧
  (∀ k ≤ tx.vout.length,
     0 ≤ voutValueSum (tx.vout.take k) ∧ voutValueSum (tx.vout.take k) ≤ maxMoney) ∧
  (tx.vin.map (fun i => i.prevout)).Nodup ∧
  (tx.IsCoinBase = true → fTestNet = false →
     ∀ i ∈ tx.vin, 2 ≤ i.scriptSig.length ∧ i.scriptSig.length ≤ 100) ∧
  (tx.IsCoinBase = false → ∀ i ∈ tx.vin, i.prevout.IsNull = false)

/-- C2: `CheckTransaction` returns true only if: vin non-empty, vout
non-empty, serialized size at most MAX_BLOCK_SIZE, every output value in
[0, MAX_MONEY], every running sum of output values in [0, MAX_MONEY],
no two inputs sharing an outpoint, mainnet coinbase scriptSig length in
[2, 100], and non-coinbase inputs all non-null. -/
theorem checkTransaction_only_if (fTestNet : Bool) (maxMoney : Int)
    (maxBlockSize serSize : Nat) (tx : CTransaction)
    (hmoney : 0 ≤ maxMoney)
    (h : checkTransaction fTestNet maxMoney maxBlockSize serSize tx = true) :
    CheckTransactionNecessary fTestNet maxMoney maxBlockSize serSize tx := by
  rw [checkTransaction] at h
  by_cases h1 : tx.vin.isEmpty
  · simp [h1] at h
  · simp only [h1, if_false] at h
    by_cases h2 : tx.vout.isEmpty
    · simp [h2] at h
    · simp only [h2, if_false] at h
      by_cases h3 : decide (serSize > maxBlockSize) = true
      · simp [h3] at h
      · simp only [h3, if_false] at h
        by_cases h4 : (!checkVoutLoop tx.IsCoinBase tx.IsCoinStake maxMoney tx.vout 0) = true
        · simp [h4] at h
        · simp only [h4, if_false] at h
          by_cases h5 : hasDupOutpoints [] tx.vin = true
          · simp [h5] at h
          · simp only [h5, if_false] at h
            have hloop : checkVoutLoop tx.IsCoinBase tx.IsCoinStake maxMoney tx.vout 0 = true := by
              simpa using h4
            have hdup : hasDupOutpoints [] tx.vin = false := by
              simpa using h5
            refine ⟨by simpa using h1, by simpa using h2, by simpa using h3, ?_, ?_, ?_, ?_, ?_⟩
            · exact checkVoutLoop_each _ _ _ _ _ hloop
            · intro k hk
              cases Nat.eq_zero_or_pos k with
              | inl hz => subst hz; simpa [voutValueSum] using hmoney
              | inr hpos =>
                have := checkVoutLoop_range _ _ _ _ _ hloop k hpos hk
                constructor
                · have := (Bool.and_eq_true _ _).mp this |>.1
                  simpa using this
                · have := (Bool.and_eq_true _ _).mp this |>.2
                  simpa using this
            · exact (hasDupOutpoints_spec tx.vin [] hdup).1
            · intro hcb htn i hi
              simp only [hcb, if_true] at h
              have hflip : ∀ c : Bool, (if c then (false : Bool) else true) = true → c = false := by
                intro c hc
                cases c
                · rfl
                · simp at hc
              have hc := hflip _ h
              subst htn
              obtain ⟨j, hj⟩ : ∃ j, tx.vin = [j] := by
                unfold CTransaction.IsCoinBase at hcb
                match hv : tx.vin with
                | [j] => exact ⟨j, rfl⟩
                | [] => rw [hv] at hcb; simp at hcb
                | j :: j2 :: rest => rw [hv] at hcb; simp at hcb
              rw [hj] at hc hi
              simp at hc
              rcases List.mem_singleton.mp hi with rfl
              omega
            · intro hcb i hi
              simp only [hcb, if_false] at h
              by_cases hnull : tx.vin.any (fun i => i.prevout.IsNull) = true
              · simp [hnull] at h
              · have := List.any_eq_false.mp (by simpa using hnull)
                simpa using this i hi

/-- A concrete mainnet coinbase transaction exercising `checkTransaction`. -/
def cbTxExample : CTransaction :=
  { nVersion := 1, nTime := 5,
    vin := [⟨⟨0, 4294967295⟩, [0, 0], 0⟩],
    vout := [⟨1, [1]⟩], nLockTime := 0 }

/-- Witness for C2 at a concrete transaction. -/
theorem checkTransaction_only_if_witness :
    CheckTransactionNecessary false 100 1000 10 cbTxExample :=
  checkTransaction_only_if false 100 1000 10 cbTxExample (by decide) (by decide)

/-- Function `GetProofOfStakeReward` (src/main.cpp:930-958).  `coin` is the COIN
unit constant from the missing `main.h` (a positive integer, canonically
100000000); the C++ `nSubsidy >> halvings` on the non-negative int64
`40 * COIN` equals division by `2 ^ halvings`.  Heights, fees and the
coin age are int/int64 values, modelled as `Int`. -/
def GetProofOfStakeReward (coin : Nat) (nCoinAge nFees : Int) (nHeight : Int) : Int :=
  if nHeight < 5000 then 30 * coin + nFees
  else if nHeight < 7000 then 45 * coin + nFees
  else if nHeight < 7250 then 190 * coin + nFees
  else if nHeight < 8500 then 80 * coin + nFees
  else if nHeight < 10000 then 15 * coin + nFees
  else if nHeight < 13500 then 30 * coin + nFees
  else
    let halvings : Int := nHeight / 1000000
    let nSubsidy0 : Int := if 64 ≤ halvings then 0 else ((40 * coin) / 2 ^ halvings.toNat : Nat)
    let nSubsidy1 : Int := nSubsidy0 - nSubsidy0 * (nHeight % 1000000) / (2 * 1000000)
    nSubsidy1 + nFees

/-- C5: for every height `h ≥ 13500` and all `coinAge`, `fees`, the
proof-of-stake reward equals `s2 + fees` with
`s = 0` if `h / 1000000 ≥ 64`, else `s = (40 * COIN) >>> (h / 1000000)`,
and `s2 = s - s * (h % 1000000) / (2 * 1000000)`, in exact integer
arithmetic. -/
theorem getProofOfStakeReward_halving (coin : Nat) (nCoinAge nFees : Int)
    (nHeight : Int) (hh : 13500 ≤ nHeight) :
    GetProofOfStakeReward coin nCoinAge nFees nHeight =
      (let s : Int :=
        if 64 ≤ nHeight / 1000000 then 0
        else ((40 * coin) >>> (nHeight / 1000000).toNat : Nat)
       s - s * (nHeight % 1000000) / (2 * 1000000)) + nFees := by
  have h1 : ¬nHeight < 5000 := by omega
  have h2 : ¬nHeight < 7000 := by omega
  have h3 : ¬nHeight < 7250 := by omega
  have h4 : ¬nHeight < 8500 := by omega
  have h5 : ¬nHeight < 10000 := by omega
  have h6 : ¬nHeight < 13500 := by omega
  rw [GetProofOfStakeReward]
  simp only [h1, h2, h3, h4, h5, h6, if_false]
  rw [Nat.shiftRight_eq_div_pow]

/-- Witness for C5 at height 13500 with COIN = 100000000. -/
theorem getProofOfStakeReward_halving_witness :
    (13500 : Int) ≤ 13500 ∧
      GetProofOfStakeReward 100000000 99 7 13500 =
        (let s : Int :=
          if 64 ≤ (13500 : Int) / 1000000 then 0
          else ((40 * 100000000) >>> ((13500 : Int) / 1000000).toNat : Nat)
         s - s * ((13500 : Int) % 1000000) / (2 * 1000000)) + 7 :=
  ⟨by decide, getProofOfStakeReward_halving 100000000 99 7 13500 (by decide)⟩

/-- The closed set of standard script shapes recognized by the solver. -/
inductive TxnOutType where
  | TX_NONSTANDARD
  | TX_PUBKEY
  | TX_PUBKEYHASH
  | TX_SCRIPTHASH
  | TX_MULTISIG
  | TX_NULL_DATA
deriving DecidableEq, Repr

/-- A default transaction value used when indexing `vtx`. -/
def defaultTx : CTransaction :=
  { nVersion := 0, nTime := 0, vin := [], vout := [], nLockTime := 0 }

/-- Function `CBlock::CheckBlockSignature` (src/main.cpp:2846-2870).  The script
solver, public-key parsing and ECDSA verification are external (script
interpreter and crypto primitives), supplied as oracles `solver`,
`setPubKeyOk` and `keyVerify`; `blockHash` is the block's hash. -/
def checkBlockSignature
    (solver : List Nat → Option (TxnOutType × List (List Nat)))
    (setPubKeyOk : List Nat → Bool)
    (keyVerify : List Nat → Nat → List Nat → Bool)
    (blockHash : Nat) (b : CBlock) : Bool :=
  if b.IsProofOfWork then b.vchBlockSig.isEmpty
  else
    let txout := (b.vtx.getD 1 defaultTx).vout.getD 1 ⟨0, []⟩
    match solver txout.scriptPubKey with
    | none => false
    | some (whichType, vSolutions) =>
      if whichType = TxnOutType.TX_PUBKEY then
        let vchPubKey := vSolutions.headD []
        if !setPubKeyOk vchPubKey then false
        else if b.vchBlockSig.isEmpty then false
        else keyVerify vchPubKey blockHash b.vchBlockSig
      else false

/-- C10: for every proof-of-work block, `CheckBlockSignature` returns
true iff the block signature `vchBlockSig` is empty; in particular a
proof-of-work block with a non-empty signature fails the check. -/
theorem checkBlockSignature_pow (solver : List Nat → Option (TxnOutType × List (List Nat)))
    (setPubKeyOk : List Nat → Bool)
    (keyVerify : List Nat → Nat → List Nat → Bool)
    (blockHash : Nat) (b : CBlock)
    (hpow : b.IsProofOfWork = true) :
    (checkBlockSignature solver setPubKeyOk keyVerify blockHash b = true ↔
      b.vchBlockSig = []) := by
  rw [checkBlockSignature]
  simp [hpow, List.isEmpty_iff]

/-- A concrete proof-of-work block (single coinbase transaction). -/
def powBlockExample : CBlock :=
  { nVersion := 1, hashPrevBlock := 0, hashMerkleRoot := 7, nTime := 5,
    nBits := 50331668, nNonce := 3, vtx := [cbTxExample], vchBlockSig := [] }

/-- Witness for C10 at a concrete proof-of-work block. -/
theorem checkBlockSignature_pow_witness :
    (checkBlockSignature (fun _ => none) (fun _ => false) (fun _ _ _ => false) 11
        powBlockExample = true ↔ powBlockExample.vchBlockSig = []) :=
  checkBlockSignature_pow (fun _ => none) (fun _ => false) (fun _ _ _ => false) 11
    powBlockExample (by decide)

set_option maxRecDepth 8000

/-- Fuel-driven byte-length recursion (structural, so that concrete
values reduce inside the kernel). -/
def byteLenAux : Nat → Nat → Nat
  | _, 0 => 0
  | 0, _ + 1 => 0
  | fuel + 1, n + 1 => byteLenAux fuel ((n + 1) / 256) + 1

/-- Number of bytes in the big-endian magnitude representation of `n`. -/
def byteLen (n : Nat) : Nat :=
  byteLenAux n n

/-- Lemma: `byteLenAux` brackets its argument between consecutive powers of 256
(written as powers of two). -/
theorem byteLenAux_bounds :
    ∀ (fuel n : Nat), n ≤ fuel → n ≠ 0 →
      2 ^ (8 * (byteLenAux fuel n - 1)) ≤ n ∧ n < 2 ^ (8 * byteLenAux fuel n) := by
  intro fuel
  induction fuel with
  | zero =>
    intro n hle hne
    omega
  | succ fuel ih =>
    intro n hle hne
    match n with
    | 0 => omega
    | m + 1 =>
      rw [byteLenAux]
      have hdm := Nat.div_add_mod (m + 1) 256
      have hmod : (m + 1) % 256 < 256 := Nat.mod_lt _ (by norm_num)
      by_cases hq : (m + 1) / 256 = 0
      · rw [hq, byteLenAux]
        constructor
        · simp
        · have : m + 1 < 256 := by omega
          calc m + 1 < 256 := this
            _ = 2 ^ (8 * (0 + 1)) := by norm_num
      · have hqlt : (m + 1) / 256 < m + 1 :=
          Nat.div_lt_self (by omega) (by norm_num)
        have hqfuel : (m + 1) / 256 ≤ fuel := by omega
        obtain ⟨hlow, hup⟩ := ih ((m + 1) / 256) hqfuel hq
        set L := byteLenAux fuel ((m + 1) / 256) with hL
        have hL1 : 1 ≤ L := by
          by_contra hc
          have : L = 0 := by omega
          rw [this] at hup
          simp at hup
          omega
        constructor
        · have h1 : 2 ^ (8 * (L + 1 - 1)) = 2 ^ (8 * (L - 1)) * 256 := by
            have h256x : (256 : Nat) = 2 ^ 8 := by norm_num
            rw [h256x, ← pow_add]
            congr 1
            try omega
          calc 2 ^ (8 * (L + 1 - 1)) = 2 ^ (8 * (L - 1)) * 256 := h1
            _ ≤ (m + 1) / 256 * 256 := Nat.mul_le_mul_right _ hlow
            _ ≤ m + 1 := by omega
        · have h2 : 2 ^ (8 * (L + 1)) = 2 ^ (8 * L) * 256 := by
            have h256x : (256 : Nat) = 2 ^ 8 := by norm_num
            rw [h256x, ← pow_add]
            congr 1
            try omega
          have h3 : m + 1 < ((m + 1) / 256 + 1) * 256 := by omega
          calc m + 1 < ((m + 1) / 256 + 1) * 256 := h3
            _ ≤ 2 ^ (8 * L) * 256 := Nat.mul_le_mul_right _ (by omega)
            _ = 2 ^ (8 * (L + 1)) := h2.symm

/-- Size in bytes of the OpenSSL mpi magnitude of `n`: `BN_bn2mpi` adds
one leading zero byte when the top bit of the leading byte is set (that
bit is the mpi sign marker). -/
def mpiSize (n : Nat) : Nat :=
  byteLen n + (if 2 ^ (8 * byteLen n - 1) ≤ n then 1 else 0)

/-- Modelled from the spec: `CBigNum::GetCompact` (missing `bignum.h`),
the standard compact target encoding: the high byte is the mpi size `s`,
the low 24 bits hold the top three bytes of the `s`-byte representation
of `n` (`n` shifted so that the mantissa is below 2^23). -/
def getCompact (n : Nat) : Nat :=
  let s := mpiSize n
  let m := if s ≤ 3 then n * 2 ^ (8 * (3 - s)) else n / 2 ^ (8 * (s - 3))
  s * 2 ^ 24 + m

/-- Modelled from the spec: magnitude decoded by `CBigNum::SetCompact`
(missing `bignum.h`): mantissa = bits 0-22 of the compact word, placed
at byte offset `s - 3` where `s` is the high byte. -/
def setCompactPos (c : Nat) : Nat :=
  let s := c / 2 ^ 24
  let w := c % 2 ^ 23
  if s ≤ 3 then w / 2 ^ (8 * (3 - s)) else w * 2 ^ (8 * (s - 3))

/-- Modelled from the spec: bit 23 of a compact word is the mpi sign bit. -/
def setCompactNeg (c : Nat) : Bool :=
  (c / 2 ^ 23) % 2 == 1

/-- Modelled from the spec: the signed big-number value decoded by
`CBigNum::SetCompact` (missing `bignum.h`). -/
def setCompactZ (c : Nat) : Int :=
  if setCompactNeg c then -(setCompactPos c : Int) else (setCompactPos c : Int)

theorem byteLen_lower (n : Nat) (h : n ≠ 0) : 2 ^ (8 * (byteLen n - 1)) ≤ n :=
  (byteLenAux_bounds n n le_rfl h).1

theorem byteLen_upper (n : Nat) : n < 2 ^ (8 * byteLen n) := by
  by_cases h : n = 0
  · subst h
    decide
  · exact (byteLenAux_bounds n n le_rfl h).2

theorem byteLen_pos (n : Nat) (h : n ≠ 0) : 1 ≤ byteLen n := by
  by_contra hc
  have hz : byteLen n = 0 := by omega
  have := byteLen_upper n
  rw [hz] at this
  simp at this
  omega

/-- The mantissa computed by `getCompact` always fits in 23 bits. -/
theorem getCompact_m_lt (n : Nat) :
    (if mpiSize n ≤ 3 then n * 2 ^ (8 * (3 - mpiSize n))
     else n / 2 ^ (8 * (mpiSize n - 3))) < 2 ^ 23 := by
  by_cases h0 : n = 0
  · subst h0; decide
  · have hb1 := byteLen_pos n h0
    have hup := byteLen_upper n
    by_cases hpad : 2 ^ (8 * byteLen n - 1) ≤ n
    · have hs : mpiSize n = byteLen n + 1 := by
        unfold mpiSize; simp [hpad]
      rw [hs]
      by_cases hsle : byteLen n + 1 ≤ 3
      · have hble : byteLen n ≤ 2 := by omega
        simp only [hsle, if_true]
        have h1 : n * 2 ^ (8 * (3 - (byteLen n + 1))) <
            2 ^ (8 * byteLen n) * 2 ^ (8 * (3 - (byteLen n + 1))) :=
          (Nat.mul_lt_mul_right (Nat.pos_pow_of_pos _ (by norm_num))).mpr hup
        have h2 : 2 ^ (8 * byteLen n) * 2 ^ (8 * (3 - (byteLen n + 1))) ≤ 2 ^ 23 := by
          rw [← pow_add]
          exact Nat.pow_le_pow_right (by norm_num) (by omega)
        omega
      · simp only [hsle, if_false]
        rw [Nat.div_lt_iff_lt_mul (Nat.pos_pow_of_pos _ (by norm_num)), ← pow_add]
        calc n < 2 ^ (8 * byteLen n) := hup
          _ ≤ 2 ^ (23 + 8 * (byteLen n + 1 - 3)) :=
            Nat.pow_le_pow_right (by norm_num) (by omega)
    · have hlt : n < 2 ^ (8 * byteLen n - 1) := by omega
      have hs : mpiSize n = byteLen n := by
        unfold mpiSize; simp [hpad]
      rw [hs]
      by_cases hsle : byteLen n ≤ 3
      · simp only [hsle, if_true]
        have h1 : n * 2 ^ (8 * (3 - byteLen n)) <
            2 ^ (8 * byteLen n - 1) * 2 ^ (8 * (3 - byteLen n)) :=
          (Nat.mul_lt_mul_right (Nat.pos_pow_of_pos _ (by norm_num))).mpr hlt
        have h2 : 2 ^ (8 * byteLen n - 1) * 2 ^ (8 * (3 - byteLen n)) ≤ 2 ^ 23 := by
          rw [← pow_add]
          exact Nat.pow_le_pow_right (by norm_num) (by omega)
        omega
      · simp only [hsle, if_false]
        rw [Nat.div_lt_iff_lt_mul (Nat.pos_pow_of_pos _ (by norm_num)), ← pow_add]
        calc n < 2 ^ (8 * byteLen n - 1) := hlt
          _ ≤ 2 ^ (23 + 8 * (byteLen n - 3)) :=
            Nat.pow_le_pow_right (by norm_num) (by omega)

/-- Truncation to compact precision: `n` with all but its top (at most
three mantissa) bytes zeroed. -/
def truncToCompact (n : Nat) : Nat :=
  n / 2 ^ (8 * (mpiSize n - 3)) * 2 ^ (8 * (mpiSize n - 3))

/-- Round trip: decoding `getCompact n` recovers `n` truncated to
compact precision, with the sign bit clear. -/
theorem setCompact_getCompact (n : Nat) :
    setCompactPos (getCompact n) = truncToCompact n ∧
      setCompactNeg (getCompact n) = false := by
  have hm := getCompact_m_lt n
  have hgc : getCompact n =
      mpiSize n * 2 ^ 24 +
        (if mpiSize n ≤ 3 then n * 2 ^ (8 * (3 - mpiSize n))
         else n / 2 ^ (8 * (mpiSize n - 3))) := rfl
  have h23 : (2 : Nat) ^ 23 = 8388608 := by norm_num
  have h24 : (2 : Nat) ^ 24 = 16777216 := by norm_num
  set m := (if mpiSize n ≤ 3 then n * 2 ^ (8 * (3 - mpiSize n))
            else n / 2 ^ (8 * (mpiSize n - 3))) with hmdef
  have hdivs : getCompact n / 2 ^ 24 = mpiSize n := by
    rw [hgc, h24]
    rw [h23] at hm
    omega
  have hmod : getCompact n % 2 ^ 23 = m := by
    rw [hgc, h23]
    rw [h23] at hm
    omega
  have hsign : (getCompact n / 2 ^ 23) % 2 = 0 := by
    rw [hgc, h23]
    rw [h23] at hm
    omega
  constructor
  · rw [setCompactPos]
    simp only [hdivs, hmod]
    by_cases hsle : mpiSize n ≤ 3
    · simp only [hsle, if_true] at hmdef ⊢
      rw [hmdef, Nat.mul_div_cancel _ (Nat.pos_pow_of_pos _ (by norm_num))]
      unfold truncToCompact
      have : mpiSize n - 3 = 0 := by omega
      simp [this]
    · simp only [hsle, if_false] at hmdef ⊢
      rw [hmdef]
      rfl
  · rw [setCompactNeg, hsign]
    rfl

/-- Lemma: `n` is below the power of two just above its compact precision. -/
theorem truncToCompact_upper (n : Nat) : n < 2 ^ (23 + 8 * (mpiSize n - 3)) := by
  by_cases h0 : n = 0
  · subst h0; positivity
  · have hup := byteLen_upper n
    by_cases hpad : 2 ^ (8 * byteLen n - 1) ≤ n
    · have hs : mpiSize n = byteLen n + 1 := by
        unfold mpiSize; simp [hpad]
      rw [hs]
      calc n < 2 ^ (8 * byteLen n) := hup
        _ ≤ 2 ^ (23 + 8 * (byteLen n + 1 - 3)) :=
          Nat.pow_le_pow_right (by norm_num) (by omega)
    · have hb1 := byteLen_pos n h0
      have hlt : n < 2 ^ (8 * byteLen n - 1) := by omega
      have hs : mpiSize n = byteLen n := by
        unfold mpiSize; simp [hpad]
      rw [hs]
      calc n < 2 ^ (8 * byteLen n - 1) := hlt
        _ ≤ 2 ^ (23 + 8 * (byteLen n - 3)) :=
          Nat.pow_le_pow_right (by norm_num) (by omega)

/-- When bytes are dropped, `n` reaches the power of two just below its
compact precision. -/
theorem truncToCompact_lower (n : Nat) (hk : mpiSize n - 3 ≠ 0) :
    2 ^ (15 + 8 * (mpiSize n - 3)) ≤ n := by
  have h0 : n ≠ 0 := by
    intro h
    subst h
    exact hk (by decide)
  have hb1 := byteLen_pos n h0
  have hlow := byteLen_lower n h0
  by_cases hpad : 2 ^ (8 * byteLen n - 1) ≤ n
  · have hs : mpiSize n = byteLen n + 1 := by
      unfold mpiSize; simp [hpad]
    rw [hs] at hk ⊢
    calc 2 ^ (15 + 8 * (byteLen n + 1 - 3)) ≤ 2 ^ (8 * byteLen n - 1) :=
        Nat.pow_le_pow_right (by norm_num) (by omega)
      _ ≤ n := hpad
  · have hs : mpiSize n = byteLen n := by
      unfold mpiSize; simp [hpad]
    rw [hs] at hk ⊢
    calc 2 ^ (15 + 8 * (byteLen n - 3)) ≤ 2 ^ (8 * (byteLen n - 1)) :=
        Nat.pow_le_pow_right (by norm_num) (by omega)
      _ ≤ n := hlow

theorem truncToCompact_le_self (n : Nat) : truncToCompact n ≤ n :=
  Nat.div_mul_le_self n _

/-- Truncation to compact precision is monotone. -/
theorem truncToCompact_mono {a b : Nat} (h : a ≤ b) :
    truncToCompact a ≤ truncToCompact b := by
  by_cases hks : mpiSize a - 3 ≤ mpiSize b - 3
  · rcases Nat.lt_or_ge (mpiSize a - 3) (mpiSize b - 3) with hlt | hge
    · have hkb : mpiSize b - 3 ≠ 0 := by omega
      have hlb := truncToCompact_lower b hkb
      have hrb : 2 ^ (15 + 8 * (mpiSize b - 3)) ≤ truncToCompact b := by
        unfold truncToCompact
        have h1 : 2 ^ 15 ≤ b / 2 ^ (8 * (mpiSize b - 3)) := by
          rw [Nat.le_div_iff_mul_le (Nat.pos_pow_of_pos _ (by norm_num)), ← pow_add]
          exact hlb
        calc 2 ^ (15 + 8 * (mpiSize b - 3)) = 2 ^ 15 * 2 ^ (8 * (mpiSize b - 3)) :=
            pow_add 2 15 _
          _ ≤ b / 2 ^ (8 * (mpiSize b - 3)) * 2 ^ (8 * (mpiSize b - 3)) :=
            Nat.mul_le_mul_right _ h1
      refine le_of_lt ?_
      calc truncToCompact a ≤ a := truncToCompact_le_self a
        _ < 2 ^ (23 + 8 * (mpiSize a - 3)) := truncToCompact_upper a
        _ ≤ 2 ^ (15 + 8 * (mpiSize b - 3)) :=
          Nat.pow_le_pow_right (by norm_num) (by omega)
        _ ≤ truncToCompact b := hrb
    · have heq : mpiSize a - 3 = mpiSize b - 3 := by omega
      unfold truncToCompact
      rw [heq]
      exact Nat.mul_le_mul_right _ (Nat.div_le_div_right h)
  · exfalso
    have hka : mpiSize a - 3 ≠ 0 := by omega
    have hla := truncToCompact_lower a hka
    have hub := truncToCompact_upper b
    have : 2 ^ (23 + 8 * (mpiSize b - 3)) ≤ 2 ^ (15 + 8 * (mpiSize a - 3)) :=
      Nat.pow_le_pow_right (by norm_num) (by omega)
    omega

/-- Decoding after `getCompact` yields the truncation, as a signed value. -/
theorem setCompactZ_getCompact (n : Nat) :
    setCompactZ (getCompact n) = (truncToCompact n : Int) := by
  obtain ⟨hpos, hneg⟩ := setCompact_getCompact n
  rw [setCompactZ, hneg, hpos]
  simp

/-- Function `CBlockIndex::GetBlockTrust` (src/main.cpp:2533-2541): decode
`nBits`; a non-positive target gives zero trust; otherwise
`(2^256 / (target + 1))` taken to `uint256` (`getuint256`, low 256
bits). -/
def getBlockTrust (nBits : Nat) : Nat :=
  let bnTarget := setCompactZ nBits
  if bnTarget ≤ 0 then 0
  else (2 ^ 256 / (bnTarget.toNat + 1)) % 2 ^ 256

/-- The chain-trust computation of `CBlock::AddToBlockIndex`
(src/main.cpp:2260-2261):
`nChainTrust = (pprev ? pprev->nChainTrust : 0) + GetBlockTrust()`,
in `uint256` arithmetic (a node without predecessor has
`prevTrust = 0`). -/
def chainTrustNext (prevTrust nBits : Nat) : Nat :=
  (prevTrust + getBlockTrust nBits) % 2 ^ 256

/-- C1 fails as stated: `nBits = 0x04800001` decodes (mpi sign
convention) to the target −256; `AddToBlockIndex` gives the node zero
trust, while the claimed formula `floor(2^256 / (target + 1))` is a
negative number, so for a node with a zero-trust predecessor the claimed
identity is false. -/
theorem chainTrust_floor_counterexample :
    setCompactZ 75497473 = -256 ∧
      (chainTrustNext 0 75497473 : Int) ≠
        (0 : Int) + Int.fdiv (2 ^ 256) (setCompactZ 75497473 + 1) := by
  constructor
  · decide
  · decide

/-- C1 (amended): for every block-index node whose `nBits` decodes to a
positive target, the chain trust computed by `AddToBlockIndex` equals
the predecessor's chain trust plus `floor(2^256 / (target + 1))`, in
`uint256` (mod 2^256) arithmetic; a node without a predecessor gets
exactly its own block trust. -/
theorem chainTrustNext_floor (prevTrust nBits : Nat)
    (h : 1 ≤ setCompactZ nBits) :
    chainTrustNext prevTrust nBits =
        (prevTrust + (Int.fdiv (2 ^ 256) (setCompactZ nBits + 1)).toNat) % 2 ^ 256 ∧
      chainTrustNext 0 nBits = getBlockTrust nBits := by
  have hne : ¬setCompactZ nBits ≤ 0 := by omega
  have htn : (1 : Int) ≤ ((setCompactZ nBits).toNat : Int) := by
    rwa [Int.toNat_of_nonneg (by omega)]
  have hkey : getBlockTrust nBits =
      (Int.fdiv (2 ^ 256) (setCompactZ nBits + 1)).toNat := by
    rw [getBlockTrust]
    simp only [hne, if_false]
    have hdivlt : 2 ^ 256 / ((setCompactZ nBits).toNat + 1) < 2 ^ 256 := by
      have h2 : 2 ^ 256 / ((setCompactZ nBits).toNat + 1) ≤ 2 ^ 256 / 2 :=
        Nat.div_le_div_left (by omega) (by norm_num)
      omega
    rw [Nat.mod_eq_of_lt hdivlt]
    have hfd : Int.fdiv (2 ^ 256) (setCompactZ nBits + 1) =
        (2 ^ 256 : Int) / (setCompactZ nBits + 1) := by
      rw [Int.fdiv_eq_tdiv (by positivity) (by omega),
          Int.tdiv_eq_ediv (by positivity) (by omega)]
    rw [hfd]
    have h1 : setCompactZ nBits + 1 = (((setCompactZ nBits).toNat + 1 : Nat) : Int) := by
      push_cast
      rw [Int.toNat_of_nonneg (by omega)]
    have hcast : (2 ^ 256 : Int) / (setCompactZ nBits + 1) =
        ((2 ^ 256 / ((setCompactZ nBits).toNat + 1) : Nat) : Int) := by
      rw [h1]
      norm_cast
    rw [hcast, Int.toNat_natCast]
  constructor
  · rw [chainTrustNext, hkey]
  · rw [chainTrustNext, Nat.zero_add]
    apply Nat.mod_eq_of_lt
    simp only [getBlockTrust]
    rw [if_neg hne]
    exact Nat.mod_lt _ (by positivity)

/-- Witness for the amended C1 at `nBits = 0x1d00ffff`. -/
theorem chainTrustNext_floor_witness :
    chainTrustNext 5 486604799 =
        (5 + (Int.fdiv (2 ^ 256) (setCompactZ 486604799 + 1)).toNat) % 2 ^ 256 ∧
      chainTrustNext 0 486604799 = getBlockTrust 486604799 :=
  chainTrustNext_floor 5 486604799 (by decide)

/-- src/main.cpp:46: `nTargetTimespan = 20 * 60`. -/
def nTargetTimespan : Int := 20 * 60

/-- src/main.cpp:47: `nTargetSpacing = 1 * 79`. -/
def nTargetSpacing : Int := 1 * 79

/-- src/main.cpp:43: `bnProofOfWorkLimit = ~uint256(0) >> 20`. -/
def bnProofOfWorkLimit : Nat := (2 ^ 256 - 1) / 2 ^ 20

/-- The retarget computation of `GetNextTargetRequired`
(src/main.cpp:1005-1040) in a context with two prior blocks of the
matching consensus kind: `prevBits` is the last matching block's
`nBits`, `limit` the decoded target limit (`GetPOSLimit(height)` or
`bnProofOfWorkLimit`), `nActualSpacing0` the timestamp difference of the
two prior matching blocks.  Big-num division (`BN_div`) truncates toward
zero, hence `Int.tdiv`. -/
def getNextTargetRequiredCalc (prevBits limit : Nat) (nActualSpacing0 : Int) : Nat :=
  let nActualSpacing := if nActualSpacing0 < 0 then nTargetSpacing else nActualSpacing0
  let bnNew0 : Int := setCompactZ prevBits
  let nInterval : Int := nTargetTimespan / nTargetSpacing
  let bnNew1 : Int :=
    bnNew0 * ((nInterval - 1) * nTargetSpacing + nActualSpacing + nActualSpacing)
  let bnNew2 : Int := bnNew1.tdiv ((nInterval + 1) * nTargetSpacing)
  let bnNew3 : Int := if bnNew2 ≤ 0 ∨ (limit : Int) < bnNew2 then (limit : Int) else bnNew2
  getCompact bnNew3.toNat

/-- C6 fails as stated: with prior target 1264 (compact 33878016) and
the proof-of-work limit, an actual spacing of −1 is remapped to
`nTargetSpacing`, so the spacing −1 produces a strictly larger (easier)
target than the larger spacing 0. -/
theorem getNextTargetRequired_monotone_counterexample :
    (-1 : Int) ≤ 0 ∧
      setCompactZ (getNextTargetRequiredCalc 33878016 bnProofOfWorkLimit 0) <
        setCompactZ (getNextTargetRequiredCalc 33878016 bnProofOfWorkLimit (-1)) := by
  constructor
  · decide
  · decide

/-- The clamp-to-limit followed by compact encoding preserves order of
positive pre-clamp targets. -/
theorem clamp_compact_mono (limit : Nat) (a1 a2 : Int) (h1 : 1 ≤ a1) (h12 : a1 ≤ a2) :
    setCompactZ (getCompact (if a1 ≤ 0 ∨ (limit : Int) < a1 then (limit : Int) else a1).toNat) ≤
      setCompactZ (getCompact (if a2 ≤ 0 ∨ (limit : Int) < a2 then (limit : Int) else a2).toNat) := by
  rw [setCompactZ_getCompact, setCompactZ_getCompact]
  apply Nat.cast_le.mpr
  apply truncToCompact_mono
  apply Int.toNat_le_toNat
  by_cases hL1 : (limit : Int) < a1
  · have hL2 : (limit : Int) < a2 := lt_of_lt_of_le hL1 h12
    rw [if_pos (Or.inr hL1), if_pos (Or.inr hL2)]
  · have hcond1 : ¬(a1 ≤ 0 ∨ (limit : Int) < a1) := by
      push_neg
      constructor <;> omega
    rw [if_neg hcond1]
    by_cases hL2 : (limit : Int) < a2
    · rw [if_pos (Or.inr hL2)]
      omega
    · have hcond2 : ¬(a2 ≤ 0 ∨ (limit : Int) < a2) := by
        push_neg
        constructor <;> omega
      rw [if_neg hcond2]
      exact h12

/-- C6 (amended): for a fixed previous-block context — fixed prior
compact target decoding to a value at least 2, fixed target limit and
the spacing constants of the source — the decoded target returned by
`GetNextTargetRequired` is monotone non-decreasing in the actual spacing
over the non-negative spacing range.  (For negative spacings the code
remaps the spacing to `nTargetSpacing`, and for prior target 1 the
quotient can truncate to 0 and snap to the limit, both breaking
monotonicity; see the counterexample.) -/
theorem getNextTargetRequired_monotone (prevBits limit : Nat) (s1 s2 : Int)
    (h0 : 0 ≤ s1) (h12 : s1 ≤ s2) (hT : 2 ≤ setCompactZ prevBits) :
    setCompactZ (getNextTargetRequiredCalc prevBits limit s1) ≤
      setCompactZ (getNextTargetRequiredCalc prevBits limit s2) := by
  have hns1 : ¬ (s1 < 0) := by omega
  have hns2 : ¬ (s2 < 0) := by omega
  simp only [getNextTargetRequiredCalc, if_neg hns1, if_neg hns2]
  have hI : (nTargetTimespan / nTargetSpacing : Int) = 15 := by decide
  have hSp : nTargetSpacing = (79 : Int) := by decide
  rw [hI, hSp]
  have hD : (0 : Int) < (15 + 1) * 79 := by norm_num
  have hnum1 : (0 : Int) ≤ setCompactZ prevBits * ((15 - 1) * 79 + s1 + s1) := by
    apply mul_nonneg (by omega)
    omega
  have hnum2 : (0 : Int) ≤ setCompactZ prevBits * ((15 - 1) * 79 + s2 + s2) := by
    apply mul_nonneg (by omega)
    omega
  apply clamp_compact_mono
  · rw [Int.tdiv_eq_ediv hnum1 (by norm_num)]
    rw [Int.le_ediv_iff_mul_le hD]
    have hmul : (2 : Int) * ((15 - 1) * 79) ≤
        setCompactZ prevBits * ((15 - 1) * 79 + s1 + s1) := by
      apply mul_le_mul hT (by omega) (by norm_num) (by omega)
    linarith
  · rw [Int.tdiv_eq_ediv hnum1 (by norm_num), Int.tdiv_eq_ediv hnum2 (by norm_num)]
    apply Int.ediv_le_ediv hD
    apply mul_le_mul_of_nonneg_left (by omega) (by omega)

/-- Witness for the amended C6 at a concrete context. -/
theorem getNextTargetRequired_monotone_witness :
    (0 : Int) ≤ 0 ∧ (0 : Int) ≤ 10 ∧ 2 ≤ setCompactZ 33878016 ∧
      setCompactZ (getNextTargetRequiredCalc 33878016 bnProofOfWorkLimit 0) ≤
        setCompactZ (getNextTargetRequiredCalc 33878016 bnProofOfWorkLimit 10) :=
  ⟨by decide, by decide, by decide,
    getNextTargetRequired_monotone 33878016 bnProofOfWorkLimit 0 10
      (by decide) (by decide) (by decide)⟩

/-- A guarded early return: if the guard fired the result is false,
otherwise the rest runs. -/
theorem ifFalseElim (c e : Bool) (h : (if c then false else e) = true) :
    c = false ∧ e = true := by
  cases c
  · exact ⟨rfl, h⟩
  · simp at h

/-- Function `CBlock::CheckBlock` (src/main.cpp:2321-2408).  External
collaborators appear as oracles: `serSize` (network serialization size
of the block), `adjustedTime` (`GetAdjustedTime()`), `drift` (the
FUTURE_DRIFT offset, `FutureDrift(t) = t + drift`, modelled from the
spec since `main.h` is missing), `blockSigOk` (`CheckBlockSignature()`
on this block), `txSerSize` (per-transaction serialization size),
`txHash` (`GetHash()`), `legacySigOpCount` (`GetLegacySigOpCount()`),
`computedMerkleRoot` (`BuildMerkleTree()`); the in-source PoW check is
commented out, so `fCheckPOW` is unused exactly as in the source. -/
def checkBlock (maxBlockSize maxBlockSigops serSize : Nat)
    (adjustedTime drift : Int) (blockSigOk fTestNet : Bool) (maxMoney : Int)
    (txSerSize txHash legacySigOpCount : CTransaction → Nat)
    (computedMerkleRoot : Nat)
    (fCheckPOW fCheckMerkleRoot fCheckSig : Bool) (b : CBlock) : Bool :=
  if b.vtx.isEmpty || decide (b.vtx.length > maxBlockSize) ||
      decide (serSize > maxBlockSize) then false
  else if decide ((b.nTime : Int) > adjustedTime + drift) then false
  else if b.vtx.isEmpty || !(b.vtx.headD defaultTx).IsCoinBase then false
  else if (b.vtx.drop 1).any (fun tx => tx.IsCoinBase) then false
  else if decide ((b.nTime : Int) > ((b.vtx.headD defaultTx).nTime : Int) + drift) then false
  else if b.IsProofOfStake &&
      (decide ((b.vtx.headD defaultTx).vout.length ≠ 1) ||
        !((b.vtx.headD defaultTx).vout.headD ⟨0, []⟩).IsEmpty) then false
  else if b.IsProofOfStake &&
      (b.vtx.isEmpty || !(b.vtx.getD 1 defaultTx).IsCoinStake) then false
  else if b.IsProofOfStake && (b.vtx.drop 2).any (fun tx => tx.IsCoinStake) then false
  else if b.IsProofOfStake && (fCheckSig && !blockSigOk) then false
  else if !(b.vtx.all (fun tx =>
      checkTransaction fTestNet maxMoney maxBlockSize (txSerSize tx) tx &&
        !decide ((b.nTime : Int) < (tx.nTime : Int)))) then false
  else if decide ((b.vtx.map txHash).dedup.length ≠ b.vtx.length) then false
  else if decide ((b.vtx.map legacySigOpCount).sum > maxBlockSigops) then false
  else if fCheckMerkleRoot && decide (b.hashMerkleRoot ≠ computedMerkleRoot) then false
  else true

/-- C7: every block accepted by `CheckBlock` satisfies
`coinbase.time ≤ block.time + FUTURE_DRIFT` and, for every transaction
in the block, `tx.time ≤ block.time`; a block violating either bound is
rejected (contrapositive). -/
theorem checkBlock_time_bounds (maxBlockSize maxBlockSigops serSize : Nat)
    (adjustedTime drift : Int) (blockSigOk fTestNet : Bool) (maxMoney : Int)
    (txSerSize txHash legacySigOpCount : CTransaction → Nat)
    (computedMerkleRoot : Nat)
    (fCheckPOW fCheckMerkleRoot fCheckSig : Bool) (b : CBlock)
    (hdrift : 0 ≤ drift)
    (h : checkBlock maxBlockSize maxBlockSigops serSize adjustedTime drift
      blockSigOk fTestNet maxMoney txSerSize txHash legacySigOpCount
      computedMerkleRoot fCheckPOW fCheckMerkleRoot fCheckSig b = true) :
    (((b.vtx.headD defaultTx).nTime : Int) ≤ (b.nTime : Int) + drift) ∧
      ∀ tx ∈ b.vtx, (tx.nTime : Int) ≤ (b.nTime : Int) := by
  rw [checkBlock] at h
  obtain ⟨hc1, h⟩ := ifFalseElim _ _ h
  obtain ⟨hc2, h⟩ := ifFalseElim _ _ h
  obtain ⟨hc3, h⟩ := ifFalseElim _ _ h
  obtain ⟨hc4, h⟩ := ifFalseElim _ _ h
  obtain ⟨hc5, h⟩ := ifFalseElim _ _ h
  obtain ⟨hc6, h⟩ := ifFalseElim _ _ h
  obtain ⟨hc7, h⟩ := ifFalseElim _ _ h
  obtain ⟨hc8, h⟩ := ifFalseElim _ _ h
  obtain ⟨hc9, h⟩ := ifFalseElim _ _ h
  obtain ⟨hc10, h⟩ := ifFalseElim _ _ h
  have hne : ¬b.vtx.isEmpty = true := by
    intro hcontra
    rw [hcontra] at hc1
    simp at hc1
  have hall10 : ∀ x ∈ b.vtx,
      checkTransaction fTestNet maxMoney maxBlockSize (txSerSize x) x = true ∧
        x.nTime ≤ b.nTime := by
    simpa using hc10
  have halltx : ∀ tx ∈ b.vtx, (tx.nTime : Int) ≤ (b.nTime : Int) := by
    intro tx htx
    exact_mod_cast (hall10 tx htx).2
  refine ⟨?_, halltx⟩
  have hheadmem : b.vtx.headD defaultTx ∈ b.vtx := by
    match hv : b.vtx with
    | [] => rw [hv] at hne; simp at hne
    | t :: rest => simp
  have := halltx _ hheadmem
  omega

/-- Witness for C7 at a concrete proof-of-work block. -/
theorem checkBlock_time_bounds_witness :
    (((powBlockExample.vtx.headD defaultTx).nTime : Int) ≤
        (powBlockExample.nTime : Int) + 600) ∧
      ∀ tx ∈ powBlockExample.vtx,
        (tx.nTime : Int) ≤ (powBlockExample.nTime : Int) :=
  checkBlock_time_bounds 1000 1000 10 5 600 true false 100
    (fun _ => 10) (fun _ => 3) (fun _ => 0) 7 true true true powBlockExample
    (by decide) (by decide)

/-- Modelled from the spec: `CBlock::GetProofOfStake()` (missing
`main.h`) returns the block's (prevoutStake, stakeTime) pair, i.e. the
coinstake's first input outpoint and the coinstake timestamp. -/
def CBlock.GetProofOfStake (b : CBlock) : COutPoint × Nat :=
  (((b.vtx.getD 1 defaultTx).vin.headD ⟨⟨0, 0⟩, [], 0⟩).prevout,
    (b.vtx.getD 1 defaultTx).nTime)

/-- The global state consulted by the early checks of `ProcessNewBlock`
(src/main.cpp:2559-2583): the block index and orphan maps (as hash
lists), the seen-stake set, the initial-download flag, and the
sync-checkpoint oracle. -/
structure PNBState where
  mapBlockIndex : List Nat
  mapOrphanBlocks : List Nat
  setStakeSeen : List (COutPoint × Nat)
  mapOrphanBlocksByPrev : List Nat
  isInitialBlockDownload : Bool
  wantedByPendingSyncCheckpoint : Nat → Bool

/-- Outcome of the early checks of `ProcessNewBlock`: which of the three
early error returns fired, or fall-through to `CheckBlock` and the rest
of the function. -/
inductive PNBOutcome where
  | errAlreadyInIndex
  | errAlreadyOrphan
  | errDuplicateStake
  | passedEarlyChecks
deriving DecidableEq, Repr

/-- The early checks of `ProcessNewBlock` (src/main.cpp:2559-2583): the
duplicate checks against the block index and the orphan pool, then the
limited-duplicity check on the proof-of-stake pair. -/
def processNewBlockEarly (blockHash : CBlock → Nat) (st : PNBState) (b : CBlock) :
    PNBOutcome :=
  let hash := blockHash b
  if hash ∈ st.mapBlockIndex then PNBOutcome.errAlreadyInIndex
  else if hash ∈ st.mapOrphanBlocks then PNBOutcome.errAlreadyOrphan
  else if !st.isInitialBlockDownload && b.IsProofOfStake &&
      decide (b.GetProofOfStake ∈ st.setStakeSeen) &&
      !decide (hash ∈ st.mapOrphanBlocksByPrev) &&
      !st.wantedByPendingSyncCheckpoint hash then PNBOutcome.errDuplicateStake
  else PNBOutcome.passedEarlyChecks

/-- A concrete proof-of-stake transaction (coinstake shape). -/
def coinstakeTxExample : CTransaction :=
  { nVersion := 1, nTime := 9,
    vin := [⟨⟨5, 0⟩, [1], 0⟩],
    vout := [⟨0, []⟩, ⟨10, [2]⟩], nLockTime := 0 }

/-- A concrete proof-of-stake block. -/
def posBlockExample : CBlock :=
  { nVersion := 1, hashPrevBlock := 77, hashMerkleRoot := 8, nTime := 9,
    nBits := 33878016, nNonce := 0,
    vtx := [cbTxExample, coinstakeTxExample], vchBlockSig := [4] }

/-- An initial-block-download state that has already seen the stake pair
of `posBlockExample`. -/
def pnbStateIBD : PNBState :=
  { mapBlockIndex := [], mapOrphanBlocks := [],
    setStakeSeen := [(⟨5, 0⟩, 9)], mapOrphanBlocksByPrev := [],
    isInitialBlockDownload := true,
    wantedByPendingSyncCheckpoint := fun _ => false }

/-- The same state outside initial block download. -/
def pnbStateLive : PNBState :=
  { mapBlockIndex := [], mapOrphanBlocks := [],
    setStakeSeen := [(⟨5, 0⟩, 9)], mapOrphanBlocksByPrev := [],
    isInitialBlockDownload := false,
    wantedByPendingSyncCheckpoint := fun _ => false }

/-- C4 fails as stated: during initial block download the
duplicate-stake check is skipped, so a proof-of-stake block whose
(prevoutStake, stakeTime) pair is already seen — with no dependent
orphan and not sync-checkpoint-wanted — passes the early checks of
`ProcessNewBlock` instead of being rejected. -/
theorem processNewBlock_duplicate_stake_counterexample :
    posBlockExample.IsProofOfStake = true ∧
      posBlockExample.GetProofOfStake ∈ pnbStateIBD.setStakeSeen ∧
      (42 : Nat) ∉ pnbStateIBD.mapOrphanBlocksByPrev ∧
      pnbStateIBD.wantedByPendingSyncCheckpoint 42 = false ∧
      processNewBlockEarly (fun _ => 42) pnbStateIBD posBlockExample =
        PNBOutcome.passedEarlyChecks := by
  refine ⟨by decide, by decide, by decide, by decide, by decide⟩

/-- C4 (amended): outside initial block download, `ProcessNewBlock`
returns an error for any proof-of-stake block whose
(prevoutStake, stakeTime) pair is already in the seen-stake set,
provided no orphan block lists this block as its parent and the block is
not wanted by a pending sync-checkpoint — the block never reaches
`CheckBlock`/`AcceptBlock`. -/
theorem processNewBlock_duplicate_stake (blockHash : CBlock → Nat)
    (st : PNBState) (b : CBlock)
    (hibd : st.isInitialBlockDownload = false)
    (hpos : b.IsProofOfStake = true)
    (hseen : b.GetProofOfStake ∈ st.setStakeSeen)
    (horphan : blockHash b ∉ st.mapOrphanBlocksByPrev)
    (hwanted : st.wantedByPendingSyncCheckpoint (blockHash b) = false) :
    processNewBlockEarly blockHash st b ≠ PNBOutcome.passedEarlyChecks := by
  rw [processNewBlockEarly]
  by_cases h1 : blockHash b ∈ st.mapBlockIndex
  · simp [h1]
  · by_cases h2 : blockHash b ∈ st.mapOrphanBlocks
    · simp [h1, h2]
    · simp [h1, h2, hibd, hpos, hseen, horphan, hwanted]

/-- Witness for the amended C4 at a concrete state and block. -/
theorem processNewBlock_duplicate_stake_witness :
    processNewBlockEarly (fun _ => 42) pnbStateLive posBlockExample ≠
      PNBOutcome.passedEarlyChecks :=
  processNewBlock_duplicate_stake (fun _ => 42) pnbStateLive posBlockExample
    (by decide) (by decide) (by decide) (by decide) (by decide)

/-- Function `GetDeveloperPayment` (src/main.cpp:4540-4552):
`nBlockValue * DEVELOPER_PAYMENT_V2 / COIN` in int64 arithmetic
(truncated division); the two constants live in the missing `main.h` and
are parameters. -/
def GetDeveloperPayment (developerPaymentV2 coin nBlockValue : Int) : Int :=
  (nBlockValue * developerPaymentV2).tdiv coin

/-- Function `GetMasternodePayment` (src/main.cpp:4554-4558):
`(blockValue - developerPayment) * 66 / 100`; the height argument is
unused, as in the source. -/
def GetMasternodePayment (developerPaymentV2 coin nHeight blockValue : Int) : Int :=
  ((blockValue - GetDeveloperPayment developerPaymentV2 coin blockValue) * 66).tdiv 100

/-- Outcome of the masternode/developer payment section of
`ConnectBlock` for a proof-of-stake block outside initial download:
which `return DoS(...)` fired, or fall-through. -/
inductive CBPaymentsOutcome where
  | rejectMnAmount (dos : Int)
  | rejectMnWinner (dos : Int)
  | rejectMnValid (dos : Int)
  | rejectDev (dos : Int)
  | passed
deriving DecidableEq, Repr

/-- The `blockPayee` accumulated by the coinstake-output walk of
`ConnectBlock` (src/main.cpp:1694-1701): the scriptPubKey of the last
output whose value equals the required masternode payment (empty script
when none). -/
def lastPayeeScript (req : Int) (outs : List CTxOut) : List Nat :=
  outs.foldl (fun acc o => if o.nValue == req then o.scriptPubKey else acc) []

/-- The masternode/developer payment checks of `CBlock::ConnectBlock`
(src/main.cpp:1666-1812), i.e. the body of `if (!IsInitialBlockDownload())`
in the proof-of-stake branch, with the source's early returns flattened
into an if-else chain (first return wins).  `ENFORCE_MN_PAYMENT_HEIGHT =
1100000` and `ENFORCE_DEV_PAYMENT_HEIGHT = 1200000` are
src/main.cpp:62-63.  Oracles: `sporkDoS` (spork #4 value),
`spork12Threshold` (spork #12 value), `fEnforceMnWinner` (spork #2),
`isMasternodeListSynced`, `blockIsRecent`
(`MNPAYEE_MAX_BLOCK_AGE > GetTime() - blockTime`), `payeeLookup` /
`payeeRecalc` (the masternode payment manager's `GetBlockPayee` before
and after recalculation; the payee checks run only when the first lookup
succeeds), `devScript` (`GetDeveloperScript()`). -/
def connectBlockPayments (developerPaymentV2 coin nHeight nCalculatedStakeReward : Int)
    (vout1 : List CTxOut) (sporkDoS spork12Threshold postponedBlocks : Int)
    (fEnforceMnWinner isMasternodeListSynced blockIsRecent : Bool)
    (payeeLookup : Option (List Nat)) (payeeRecalc devScript : List Nat) :
    CBPaymentsOutcome :=
  let nRequiredMnPmt :=
    GetMasternodePayment developerPaymentV2 coin nHeight nCalculatedStakeReward
  let nRequiredDevPmt :=
    GetDeveloperPayment developerPaymentV2 coin nCalculatedStakeReward
  let fMnPaymentMade := vout1.any (fun o => o.nValue == nRequiredMnPmt)
  let blockPayee := lastPayeeScript nRequiredMnPmt vout1
  let fPaidCorrectMn :=
    match payeeLookup with
    | some expectedPayee =>
      if blockPayee == expectedPayee then true else blockPayee == payeeRecalc
    | none => false
  let fValidDevPmt := vout1.any (fun o =>
    o.nValue == nRequiredDevPmt && o.scriptPubKey == devScript)
  if !fMnPaymentMade && decide (nHeight ≥ 1100000) then
    CBPaymentsOutcome.rejectMnAmount sporkDoS
  else if isMasternodeListSynced && blockIsRecent && payeeLookup.isSome &&
      (!fPaidCorrectMn && fEnforceMnWinner &&
        decide (postponedBlocks < spork12Threshold)) then
    CBPaymentsOutcome.rejectMnWinner sporkDoS
  else if isMasternodeListSynced && blockIsRecent &&
      (!(fMnPaymentMade && fPaidCorrectMn) &&
        decide (postponedBlocks < spork12Threshold) && fEnforceMnWinner) then
    CBPaymentsOutcome.rejectMnValid sporkDoS
  else if !fValidDevPmt && decide (nHeight ≥ 1200000) then
    CBPaymentsOutcome.rejectDev sporkDoS
  else CBPaymentsOutcome.passed

/-- C9: for a proof-of-stake block processed outside initial block
download whose coinstake has no output equal to the required masternode
payment, the masternode-amount check rejects the block with the spork #4
DoS score iff the height is at least ENFORCE_MN_PAYMENT_HEIGHT
(1100000); in particular at height 1099999 this check does not reject. -/
theorem connectBlock_mn_amount_enforcement
    (developerPaymentV2 coin nHeight nCalculatedStakeReward : Int)
    (vout1 : List CTxOut) (sporkDoS spork12Threshold postponedBlocks : Int)
    (fEnforceMnWinner isMasternodeListSynced blockIsRecent : Bool)
    (payeeLookup : Option (List Nat)) (payeeRecalc devScript : List Nat)
    (hnone : ∀ o ∈ vout1, o.nValue ≠
      GetMasternodePayment developerPaymentV2 coin nHeight nCalculatedStakeReward) :
    (connectBlockPayments developerPaymentV2 coin nHeight nCalculatedStakeReward
        vout1 sporkDoS spork12Threshold postponedBlocks fEnforceMnWinner
        isMasternodeListSynced blockIsRecent payeeLookup payeeRecalc devScript =
      CBPaymentsOutcome.rejectMnAmount sporkDoS) ↔ 1100000 ≤ nHeight := by
  have hmade : vout1.any (fun o => o.nValue ==
      GetMasternodePayment developerPaymentV2 coin nHeight nCalculatedStakeReward) = false := by
    rw [List.any_eq_false]
    intro o ho
    simpa using hnone o ho
  simp only [connectBlockPayments, hmade]
  by_cases hh : (1100000 : Int) ≤ nHeight
  · have hd : decide (nHeight ≥ 1100000) = true := by simpa using hh
    simp [hd, hh]
  · have hd : decide (nHeight ≥ 1100000) = false := by simpa using hh
    simp only [hd, Bool.and_false, Bool.not_false, Bool.true_and, if_false]
    constructor
    · intro hc
      exfalso
      split at hc
      · simp_all
      · split at hc
        · simp_all
        · split at hc
          · simp_all
          · split at hc
            · simp_all
            · simp_all
    · intro hc
      exact absurd hc hh

/-- Witness for C9 at a concrete instance (height exactly 1100000, no
output paying the required masternode amount). -/
theorem connectBlock_mn_amount_enforcement_witness :
    (connectBlockPayments 1000000 100000000 1100000 4000000000
        [⟨0, []⟩, ⟨10, [2]⟩] 34 10 0 true true true (some [9]) [9] [7] =
      CBPaymentsOutcome.rejectMnAmount 34) ↔ (1100000 : Int) ≤ 1100000 :=
  connectBlock_mn_amount_enforcement 1000000 100000000 1100000 4000000000
    [⟨0, []⟩, ⟨10, [2]⟩] 34 10 0 true true true (some [9]) [9] [7] (by decide)

/-- The `GetMinFee_mode` enumeration (declared in the missing `main.h`;
only the comparison with `GMF_RELAY` matters in `GetMinFee`). -/
inductive GetMinFeeMode where
  | GMF_BLOCK
  | GMF_RELAY
  | GMF_SEND
deriving DecidableEq, Repr


/-- An if over a negated Bool guard swaps its branches. -/
theorem ifNotFlip {α : Type} (c : Bool) (a b : α) :
    (if !c then a else b) = if c then b else a := by
  cases c <;> rfl

/-- Function `CTransaction::GetMinFee` (src/main.cpp:481-511).  `minTxFee`,
`minRelayTxFee`, `maxMoney`, `cent` and `maxBlockSizeGen` stand for the
constants of the missing `main.h`; `vout` is the transaction's output
list.  The dust loop sets the fee to the base fee when the running fee
is below it and some output is below CENT; approaching
`MAX_BLOCK_SIZE_GEN` scales the fee by the integer factor
`MAX_BLOCK_SIZE_GEN / (MAX_BLOCK_SIZE_GEN - newSize)` (unsigned
division) and a full block returns MAX_MONEY outright; a final
MoneyRange clamp raises any out-of-range fee to MAX_MONEY. -/
def getMinFee (minTxFee minRelayTxFee maxMoney cent : Int) (maxBlockSizeGen : Nat)
    (vout : List CTxOut) (nBlockSize : Nat) (mode : GetMinFeeMode) (nBytes : Nat) : Int :=
  let nBaseFee := if mode = GetMinFeeMode.GMF_RELAY then minRelayTxFee else minTxFee
  let nNewBlockSize := nBlockSize + nBytes
  let nMinFee : Int := (1 + (nBytes / 1000 : Nat)) * nBaseFee
  let nMinFee :=
    if decide (nMinFee < nBaseFee) && vout.any (fun o => decide (o.nValue < cent)) then nBaseFee
    else nMinFee
  if nBlockSize ≠ 1 ∧ maxBlockSizeGen / 2 ≤ nNewBlockSize then
    if maxBlockSizeGen ≤ nNewBlockSize then maxMoney
    else
      let scaled := nMinFee * ((maxBlockSizeGen / (maxBlockSizeGen - nNewBlockSize) : Nat) : Int)
      if !MoneyRange maxMoney scaled then maxMoney else scaled
  else if !MoneyRange maxMoney nMinFee then maxMoney else nMinFee

/-- C8 fails as stated: with `nBlockSize = 1` (the caller-side sentinel
meaning "no block-fill adjustment") the projected size reaching
MAX_BLOCK_SIZE_GEN does NOT make the fee MAX_MONEY — the block-fill
branch requires `nBlockSize != 1` (src/main.cpp:497), a condition the
claim omits.  Constants instantiated at canonical values
(MIN_TX_FEE = 10000, MAX_BLOCK_SIZE_GEN = 500000, CENT = 1000000,
MAX_MONEY = 2000000000). -/
theorem getMinFee_counterexample :
    (500000 : Nat) ≤ 1 + 499999 ∧
      getMinFee 10000 10000 2000000000 1000000 500000 [] 1
          GetMinFeeMode.GMF_BLOCK 499999 = 5000000 ∧
      (5000000 : Int) ≠ 2000000000 := by
  refine ⟨by decide, by decide, by decide⟩

/-- C8 (amended): `GetMinFee` computes `(1 + nBytes/1000) * base` with
`base = MIN_RELAY_TX_FEE` for relay mode and `MIN_TX_FEE` otherwise
(the dust rule never changes the fee, since the fee is already at least
`base`); when `nBlockSize ≠ 1` and the projected size
`nBlockSize + nBytes` reaches MAX_BLOCK_SIZE_GEN, the result is
MAX_MONEY; when `nBlockSize ≠ 1` and the projected size reaches
MAX_BLOCK_SIZE_GEN/2, the fee is scaled by
`MAX_BLOCK_SIZE_GEN / (MAX_BLOCK_SIZE_GEN - newSize)`; finally any fee
outside MoneyRange is replaced by MAX_MONEY. -/
theorem getMinFee_characterization (minTxFee minRelayTxFee maxMoney cent : Int)
    (maxBlockSizeGen : Nat) (vout : List CTxOut) (nBlockSize : Nat)
    (mode : GetMinFeeMode) (nBytes : Nat)
    (hbase : 0 ≤ (if mode = GetMinFeeMode.GMF_RELAY then minRelayTxFee else minTxFee)) :
    getMinFee minTxFee minRelayTxFee maxMoney cent maxBlockSizeGen vout
        nBlockSize mode nBytes =
      (if nBlockSize ≠ 1 ∧ maxBlockSizeGen ≤ nBlockSize + nBytes then maxMoney
       else if nBlockSize ≠ 1 ∧ maxBlockSizeGen / 2 ≤ nBlockSize + nBytes then
         (if MoneyRange maxMoney
             (((1 + (nBytes / 1000 : Nat) : Int)) *
               (if mode = GetMinFeeMode.GMF_RELAY then minRelayTxFee else minTxFee) *
               ((maxBlockSizeGen / (maxBlockSizeGen - (nBlockSize + nBytes)) : Nat) : Int)) then
            ((1 + (nBytes / 1000 : Nat) : Int)) *
              (if mode = GetMinFeeMode.GMF_RELAY then minRelayTxFee else minTxFee) *
              ((maxBlockSizeGen / (maxBlockSizeGen - (nBlockSize + nBytes)) : Nat) : Int)
          else maxMoney)
       else
         (if MoneyRange maxMoney
             (((1 + (nBytes / 1000 : Nat) : Int)) *
               (if mode = GetMinFeeMode.GMF_RELAY then minRelayTxFee else minTxFee)) then
            ((1 + (nBytes / 1000 : Nat) : Int)) *
              (if mode = GetMinFeeMode.GMF_RELAY then minRelayTxFee else minTxFee)
          else maxMoney)) := by
  rw [getMinFee]
  have hnotdust : ¬(((1 + (nBytes / 1000 : Nat) : Int)) *
      (if mode = GetMinFeeMode.GMF_RELAY then minRelayTxFee else minTxFee) <
      (if mode = GetMinFeeMode.GMF_RELAY then minRelayTxFee else minTxFee)) := by
    push_neg
    have hcast : (0 : Int) ≤ ((nBytes / 1000 : Nat) : Int) := Int.natCast_nonneg _
    calc (if mode = GetMinFeeMode.GMF_RELAY then minRelayTxFee else minTxFee) =
        1 * (if mode = GetMinFeeMode.GMF_RELAY then minRelayTxFee else minTxFee) :=
        (one_mul _).symm
      _ ≤ ((1 + (nBytes / 1000 : Nat) : Int)) *
          (if mode = GetMinFeeMode.GMF_RELAY then minRelayTxFee else minTxFee) :=
        mul_le_mul_of_nonneg_right (by omega) hbase
  rw [decide_eq_false hnotdust, Bool.false_and, if_neg Bool.false_ne_true]
  rw [ifNotFlip, ifNotFlip]
  by_cases h1 : nBlockSize = 1
  · have hnA : ¬(nBlockSize ≠ 1 ∧ maxBlockSizeGen / 2 ≤ nBlockSize + nBytes) :=
      fun hA => hA.1 h1
    have hnB : ¬(nBlockSize ≠ 1 ∧ maxBlockSizeGen ≤ nBlockSize + nBytes) :=
      fun hA => hA.1 h1
    conv_lhs => rw [if_neg hnA]
    conv_rhs => rw [if_neg hnB, if_neg hnA]
  · by_cases hfull : maxBlockSizeGen ≤ nBlockSize + nBytes
    · have hhalf : maxBlockSizeGen / 2 ≤ nBlockSize + nBytes := by omega
      conv_lhs => rw [if_pos ⟨h1, hhalf⟩, if_pos hfull]
      conv_rhs => rw [if_pos ⟨h1, hfull⟩]
    · by_cases hhalf : maxBlockSizeGen / 2 ≤ nBlockSize + nBytes
      · have hnB : ¬(nBlockSize ≠ 1 ∧ maxBlockSizeGen ≤ nBlockSize + nBytes) :=
          fun hA => hfull hA.2
        conv_lhs => rw [if_pos ⟨h1, hhalf⟩, if_neg hfull]
        conv_rhs => rw [if_neg hnB, if_pos ⟨h1, hhalf⟩]
      · have hnA : ¬(nBlockSize ≠ 1 ∧ maxBlockSizeGen / 2 ≤ nBlockSize + nBytes) :=
          fun hA => hhalf hA.2
        have hnB : ¬(nBlockSize ≠ 1 ∧ maxBlockSizeGen ≤ nBlockSize + nBytes) :=
          fun hA => hfull hA.2
        conv_lhs => rw [if_neg hnA]
        conv_rhs => rw [if_neg hnB, if_neg hnA]

/-- Witness for the amended C8 at concrete values. -/
theorem getMinFee_characterization_witness :
    getMinFee 10000 10000 2000000000 1000000 500000 [] 1
        GetMinFeeMode.GMF_BLOCK 499999 =
      (if (1 : Nat) ≠ 1 ∧ (500000 : Nat) ≤ 1 + 499999 then (2000000000 : Int)
       else if (1 : Nat) ≠ 1 ∧ (500000 : Nat) / 2 ≤ 1 + 499999 then
         (if MoneyRange 2000000000
             (((1 + ((499999 : Nat) / 1000 : Nat) : Int)) *
               (if GetMinFeeMode.GMF_BLOCK = GetMinFeeMode.GMF_RELAY
                then (10000 : Int) else 10000) *
               (((500000 : Nat) / (500000 - (1 + 499999)) : Nat) : Int)) then
            ((1 + ((499999 : Nat) / 1000 : Nat) : Int)) *
              (if GetMinFeeMode.GMF_BLOCK = GetMinFeeMode.GMF_RELAY
               then (10000 : Int) else 10000) *
              (((500000 : Nat) / (500000 - (1 + 499999)) : Nat) : Int)
          else 2000000000)
       else
         (if MoneyRange 2000000000
             (((1 + ((499999 : Nat) / 1000 : Nat) : Int)) *
               (if GetMinFeeMode.GMF_BLOCK = GetMinFeeMode.GMF_RELAY
                then (10000 : Int) else 10000)) then
            ((1 + ((499999 : Nat) / 1000 : Nat) : Int)) *
              (if GetMinFeeMode.GMF_BLOCK = GetMinFeeMode.GMF_RELAY
               then (10000 : Int) else 10000)
          else 2000000000)) :=
  getMinFee_characterization 10000 10000 2000000000 1000000 500000 [] 1
    GetMinFeeMode.GMF_BLOCK 499999 (by decide)

/-- Modelled from the spec: two transactions conflict when their inputs
collide, i.e. they spend a common outpoint (the conflict notion of
`CTxMemPool::removeConflicts`; the mempool methods are not in src/). -/
def txConflicts (a b : CTransaction) : Bool :=
  a.vin.any (fun i => b.vin.any (fun j => i.prevout == j.prevout))

/-- Modelled from the spec: `CTxMemPool::remove` drops the entry keyed
by the transaction's txid; the pool is modelled as a list with the hash
oracle `txHash`. -/
def mempoolRemove (txHash : CTransaction → Nat) (tx : CTransaction)
    (pool : List CTransaction) : List CTransaction :=
  pool.filter (fun m => txHash m != txHash tx)

/-- Modelled from the spec: `CTxMemPool::removeConflicts tx` drops every
mempool transaction whose inputs collide with `tx`. -/
def mempoolRemoveConflicts (tx : CTransaction) (pool : List CTransaction) :
    List CTransaction :=
  pool.filter (fun m => !txConflicts m tx)

/-- The resurrection list of `Reorganize` (src/main.cpp:1899-1920): the
non-coinbase, non-coinstake transactions of the disconnected blocks. -/
def vResurrectOf (vDisconnect : List CBlock) : List CTransaction :=
  vDisconnect.bind (fun b => b.vtx.filter (fun tx => !(tx.IsCoinBase || tx.IsCoinStake)))

/-- The deletion list of `Reorganize` (src/main.cpp:1942-1962): every
transaction of the connected blocks. -/
def vDeleteOf (vConnect : List CBlock) : List CTransaction :=
  vConnect.bind (fun b => b.vtx)

/-- The mempool update performed after the `Reorganize` commit
(src/main.cpp:1964-1974): resurrect the queued transactions best-effort
(`AcceptToMemoryPool`; its admission decision is the oracle `accept`),
then `mempool.remove` and `mempool.removeConflicts` for every newly
confirmed transaction.  Returns the list of transactions submitted for
resurrection and the final mempool. -/
def reorganizeMempool (txHash : CTransaction → Nat)
    (accept : List CTransaction → CTransaction → List CTransaction)
    (vDisconnect vConnect : List CBlock) (pool : List CTransaction) :
    List CTransaction × List CTransaction :=
  let vResurrect := vResurrectOf vDisconnect
  let vDelete := vDeleteOf vConnect
  let pool1 := vResurrect.foldl accept pool
  let pool2 := vDelete.foldl
    (fun p tx => mempoolRemoveConflicts tx (mempoolRemove txHash tx p)) pool1
  (vResurrect, pool2)

/-- One remove-and-removeConflicts step only shrinks the pool. -/
theorem removeStep_subset (txHash : CTransaction → Nat) (tx : CTransaction)
    (p : List CTransaction) (m : CTransaction)
    (hm : m ∈ mempoolRemoveConflicts tx (mempoolRemove txHash tx p)) : m ∈ p := by
  have h1 := List.mem_filter.mp hm
  have h2 := List.mem_filter.mp h1.1
  exact h2.1

/-- The fold of remove steps only shrinks the pool. -/
theorem foldRemove_subset (txHash : CTransaction → Nat) :
    ∀ (L : List CTransaction) (p : List CTransaction) (m : CTransaction),
      m ∈ L.foldl (fun p tx => mempoolRemoveConflicts tx (mempoolRemove txHash tx p)) p →
      m ∈ p := by
  intro L
  induction L with
  | nil => intro p m hm; simpa using hm
  | cons t rest ih =>
    intro p m hm
    rw [List.foldl_cons] at hm
    exact removeStep_subset txHash t p m (ih _ m hm)

/-- After the fold of remove steps, no surviving pool entry shares a
txid with, or conflicts with, any processed transaction. -/
theorem foldRemove_spec (txHash : CTransaction → Nat) :
    ∀ (L : List CTransaction) (p : List CTransaction) (m : CTransaction),
      m ∈ L.foldl (fun p tx => mempoolRemoveConflicts tx (mempoolRemove txHash tx p)) p →
      ∀ tx ∈ L, txHash m ≠ txHash tx ∧ txConflicts m tx = false := by
  intro L
  induction L with
  | nil => intro p m _ tx htx; simp at htx
  | cons t rest ih =>
    intro p m hm tx htx
    rw [List.foldl_cons] at hm
    rcases List.mem_cons.mp htx with rfl | htxr
    · have hstep := foldRemove_subset txHash rest _ m hm
      have h1 := List.mem_filter.mp hstep
      have h2 := List.mem_filter.mp h1.1
      constructor
      · simpa using h2.2
      · simpa using h1.2
    · exact ih _ m hm tx htxr

/-- C3: after a successful `Reorganize`, exactly the non-coinbase,
non-coinstake transactions of the disconnected blocks are re-submitted
to the mempool (best-effort), and every transaction of the newly
connected blocks is removed from the mempool together with any
conflicting mempool transaction: the final pool contains no entry with a
connected transaction's txid nor any entry whose inputs collide with a
connected transaction. -/
theorem reorganize_mempool_effects (txHash : CTransaction → Nat)
    (accept : List CTransaction → CTransaction → List CTransaction)
    (vDisconnect vConnect : List CBlock) (pool : List CTransaction) :
    (∀ tx, tx ∈ (reorganizeMempool txHash accept vDisconnect vConnect pool).1 ↔
      ∃ b ∈ vDisconnect, tx ∈ b.vtx ∧
        tx.IsCoinBase = false ∧ tx.IsCoinStake = false) ∧
    (∀ tx, tx ∈ vDeleteOf vConnect ↔ ∃ b ∈ vConnect, tx ∈ b.vtx) ∧
    (∀ tx ∈ vDeleteOf vConnect,
      ∀ m ∈ (reorganizeMempool txHash accept vDisconnect vConnect pool).2,
        txHash m ≠ txHash tx ∧ txConflicts m tx = false) := by
  refine ⟨?_, ?_, ?_⟩
  · intro tx
    simp only [reorganizeMempool, vResurrectOf, List.mem_bind, List.mem_filter]
    constructor
    · rintro ⟨b, hb, htx, hflag⟩
      refine ⟨b, hb, htx, ?_, ?_⟩
      · have := (Bool.not_eq_true' _).mp hflag
        exact (Bool.or_eq_false_iff.mp this).1
      · have := (Bool.not_eq_true' _).mp hflag
        exact (Bool.or_eq_false_iff.mp this).2
    · rintro ⟨b, hb, htx, hcb, hcs⟩
      exact ⟨b, hb, htx, by simp [hcb, hcs]⟩
  · intro tx
    simp [vDeleteOf, List.mem_bind]
  · intro tx htx m hm
    exact foldRemove_spec txHash (vDeleteOf vConnect) _ m hm tx htx
